/-
Verification of the LocationCache component
(cloud/pkg/edgecontroller/manager/location.go).

The cache owns four maps (edge-node set, config-map to nodes, secret to
nodes, endpoints snapshots).  sync.Map is modelled by an association list
with sequential load/store/delete semantics; one load or store is one
atomic action.  Kubernetes objects are modelled with exactly the fields
the code reads.
-/
import Mathlib

/-! ## Generic map model (sync.Map at sequential granularity) -/

/-- Load on an association list: the value at the first matching key. -/
def mapLoad {κ α : Type} [DecidableEq κ] : List (κ × α) → κ → Option α
  | [], _ => none
  | (k, v) :: rest, key => if k = key then some v else mapLoad rest key

/-- Store on an association list: replace the binding in place, or append. -/
def mapStore {κ α : Type} [DecidableEq κ] : List (κ × α) → κ → α → List (κ × α)
  | [], key, v => [(key, v)]
  | (k, w) :: rest, key, v =>
    if k = key then (key, v) :: rest else (k, w) :: mapStore rest key v

/-- Delete on an association list: drop every binding of the key. -/
def mapDelete {κ α : Type} [DecidableEq κ] : List (κ × α) → κ → List (κ × α)
  | [], _ => []
  | (k, w) :: rest, key =>
    if k = key then mapDelete rest key else (k, w) :: mapDelete rest key

/-! ## Object model: the fields of the Kubernetes types the code reads -/

structure ConfigMapVolumeSource where
  name : String
  deriving DecidableEq

structure SecretVolumeSource where
  secretName : String
  deriving DecidableEq

structure ConfigMapProjection where
  name : String
  deriving DecidableEq

structure SecretProjection where
  name : String
  deriving DecidableEq

/-- One source of a projected volume (only the two fields the code reads). -/
structure VolumeProjection where
  configMap : Option ConfigMapProjection
  secret : Option SecretProjection
  deriving DecidableEq

structure ProjectedVolumeSource where
  sources : List VolumeProjection
  deriving DecidableEq

structure Volume where
  configMap : Option ConfigMapVolumeSource
  secret : Option SecretVolumeSource
  projected : Option ProjectedVolumeSource
  deriving DecidableEq

structure ConfigMapEnvSource where
  name : String
  deriving DecidableEq

structure SecretEnvSource where
  name : String
  deriving DecidableEq

structure EnvFromSource where
  configMapRef : Option ConfigMapEnvSource
  secretRef : Option SecretEnvSource
  deriving DecidableEq

structure ConfigMapKeySelector where
  name : String
  deriving DecidableEq

structure SecretKeySelector where
  name : String
  deriving DecidableEq

structure EnvVarSource where
  configMapKeyRef : Option ConfigMapKeySelector
  secretKeyRef : Option SecretKeySelector
  deriving DecidableEq

structure EnvVar where
  valueFrom : Option EnvVarSource
  deriving DecidableEq

structure Container where
  envFrom : List EnvFromSource
  env : List EnvVar
  deriving DecidableEq

structure LocalObjectReference where
  name : String
  deriving DecidableEq

structure PodSpec where
  nodeName : String
  volumes : List Volume
  containers : List Container
  imagePullSecrets : List LocalObjectReference
  deriving DecidableEq

/-- A pod; namespc is the Namespace field of its ObjectMeta. -/
structure Pod where
  namespc : String
  spec : PodSpec
  deriving DecidableEq

/-- Object metadata.  resourceVersion, generation and annotations are the
churn fields IsEndpointsUpdated masks; name, namespc and labels stand for
the remaining, deeply compared fields. -/
structure ObjectMeta where
  name : String
  namespc : String
  resourceVersion : String
  generation : Int
  labels : List (String × String)
  annotations : List (String × String)
  deriving DecidableEq

structure EndpointAddress where
  ip : String
  deriving DecidableEq

structure EndpointPort where
  port : Int
  deriving DecidableEq

structure EndpointSubset where
  addresses : List EndpointAddress
  ports : List EndpointPort
  deriving DecidableEq

structure Endpoints where
  metadata : ObjectMeta
  subsets : List EndpointSubset
  deriving DecidableEq

/-! ## The LocationCache -/

/-- The four maps of the cache.  The edge-node set is a sync.Map whose
values are empty structs, hence a list of names with set semantics. -/
structure LocationCache where
  EdgeNodes : List String
  configMapNode : List (String × List String)
  secretNode : List (String × List String)
  endpoints : List (String × Endpoints)
  deriving DecidableEq

def emptyCache : LocationCache :=
  { EdgeNodes := [], configMapNode := [], secretNode := [], endpoints := [] }

/-- fmt.Sprintf with layout percent-s slash percent-s. -/
def locKey (namespc name : String) : String := namespc ++ "/" ++ name

/-- PodConfigMapsAndSecrets: the config maps and secrets a pod references,
in discovery order (volumes, projected sources, envFrom, env value
sources, image-pull secrets).  In a projected source and in an env value
source the config-map branch is checked first. -/
def PodConfigMapsAndSecrets (pod : Pod) : List String × List String :=
  let acc := pod.spec.volumes.foldl (fun acc v =>
    let acc := match v.configMap with
      | some cm => (acc.1 ++ [cm.name], acc.2)
      | none => acc
    let acc := match v.secret with
      | some s => (acc.1, acc.2 ++ [s.secretName])
      | none => acc
    match v.projected with
    | some p => p.sources.foldl (fun acc source =>
        match source.configMap, source.secret with
        | some cm, _ => (acc.1 ++ [cm.name], acc.2)
        | none, some s => (acc.1, acc.2 ++ [s.name])
        | none, none => acc) acc
    | none => acc) (([], []) : List String × List String)
  let acc := pod.spec.containers.foldl (fun acc s =>
    let acc := s.envFrom.foldl (fun acc ef =>
      let acc := match ef.configMapRef with
        | some r => (acc.1 ++ [r.name], acc.2)
        | none => acc
      match ef.secretRef with
      | some r => (acc.1, acc.2 ++ [r.name])
      | none => acc) acc
    s.env.foldl (fun acc e =>
      match e.valueFrom with
      | none => acc
      | some vf =>
        match vf.configMapKeyRef, vf.secretKeyRef with
        | some r, _ => (acc.1 ++ [r.name], acc.2)
        | none, some r => (acc.1, acc.2 ++ [r.name])
        | none, none => acc) acc) acc
  pod.spec.imagePullSecrets.foldl (fun acc s => (acc.1, acc.2 ++ [s.name])) acc

/-- newNodes: return oldNodes when node is already present, else append. -/
def newNodes (oldNodes : List String) (node : String) : List String :=
  if oldNodes.contains node then oldNodes else oldNodes ++ [node]

/-- One key update inside AddOrUpdatePod: load the node list, build the
new list (a singleton when the key is absent), store it back. -/
def addNodeForKey (m : List (String × List String)) (k node : String) :
    List (String × List String) :=
  match mapLoad m k with
  | some nodes => mapStore m k (newNodes nodes node)
  | none => mapStore m k [node]

/-- AddOrUpdatePod: extract the pod's config maps and secrets, then update
the node list of every referenced key with the pod's node name. -/
def LocationCache.AddOrUpdatePod (lc : LocationCache) (pod : Pod) : LocationCache :=
  let cs := PodConfigMapsAndSecrets pod
  { lc with
    configMapNode := cs.1.foldl
      (fun m c => addNodeForKey m (locKey pod.namespc c) pod.spec.nodeName)
      lc.configMapNode
    secretNode := cs.2.foldl
      (fun m s => addNodeForKey m (locKey pod.namespc s) pod.spec.nodeName)
      lc.secretNode }

/-- The shared body of ConfigMapNodes and SecretNodes: the stored list, or
the nil slice when the key is absent. -/
def nodesAt (m : List (String × List String)) (k : String) : List String :=
  match mapLoad m k with
  | some nodes => nodes
  | none => []

def LocationCache.ConfigMapNodes (lc : LocationCache) (namespc name : String) :
    List String :=
  nodesAt lc.configMapNode (locKey namespc name)

def LocationCache.SecretNodes (lc : LocationCache) (namespc name : String) :
    List String :=
  nodesAt lc.secretNode (locKey namespc name)

def LocationCache.IsEdgeNode (lc : LocationCache) (nodeName : String) : Bool :=
  lc.EdgeNodes.contains nodeName

def LocationCache.UpdateEdgeNode (lc : LocationCache) (nodeName : String) :
    LocationCache :=
  { lc with EdgeNodes :=
      if lc.EdgeNodes.contains nodeName then lc.EdgeNodes
      else lc.EdgeNodes ++ [nodeName] }

def LocationCache.DeleteConfigMap (lc : LocationCache) (namespc name : String) :
    LocationCache :=
  { lc with configMapNode := mapDelete lc.configMapNode (locKey namespc name) }

def LocationCache.DeleteSecret (lc : LocationCache) (namespc name : String) :
    LocationCache :=
  { lc with secretNode := mapDelete lc.secretNode (locKey namespc name) }

def LocationCache.DeleteNode (lc : LocationCache) (nodeName : String) :
    LocationCache :=
  { lc with EdgeNodes := lc.EdgeNodes.filter (fun n => !(n == nodeName)) }

def LocationCache.AddOrUpdateEndpoints (lc : LocationCache) (eps : Endpoints) :
    LocationCache :=
  { lc with endpoints :=
      mapStore lc.endpoints (locKey eps.metadata.namespc eps.metadata.name) eps }

def LocationCache.DeleteEndpoints (lc : LocationCache) (eps : Endpoints) :
    LocationCache :=
  { lc with endpoints :=
      mapDelete lc.endpoints (locKey eps.metadata.namespc eps.metadata.name) }

/-- The working copy of the old metadata after the three churn-field
assignments at the start of the comparison. -/
def maskChurn (old new : ObjectMeta) : ObjectMeta :=
  { old with
    resourceVersion := new.resourceVersion
    generation := new.generation
    annotations := new.annotations }

/-- IsEndpointsUpdated: true when the key is unknown; otherwise mask the
churn fields of the stored copy and deep-compare metadata and subsets. -/
def LocationCache.IsEndpointsUpdated (lc : LocationCache) (new : Endpoints) : Bool :=
  match mapLoad lc.endpoints (locKey new.metadata.namespc new.metadata.name) with
  | none => true
  | some old =>
    !(maskChurn old.metadata new.metadata == new.metadata)
      || !(old.subsets == new.subsets)

def LocationCache.GetAllEndpoints (lc : LocationCache) : List Endpoints :=
  lc.endpoints.map (fun kv => kv.2)

/-- A sequence of AddOrUpdatePod calls applied in order. -/
def applyPods (lc : LocationCache) (pods : List Pod) : LocationCache :=
  pods.foldl LocationCache.AddOrUpdatePod lc

/-- Every stored node list in an index is duplicate-free. -/
def IndexNodup (m : List (String × List String)) : Prop :=
  ∀ k l, mapLoad m k = some l → l.Nodup

/-- Both reverse indices hold duplicate-free node lists. -/
def CacheNodup (lc : LocationCache) : Prop :=
  IndexNodup lc.configMapNode ∧ IndexNodup lc.secretNode

/-! ## Concrete objects used by witnesses and counterexamples -/

/-- A pod on node n1 whose only dependency is config map cm1 in namespace d. -/
def podA : Pod :=
  { namespc := "d"
    spec :=
      { nodeName := "n1"
        volumes := [ { configMap := some { name := "cm1" }, secret := none, projected := none } ]
        containers := []
        imagePullSecrets := [] } }

/-- Same dependency as podA, but on node n2. -/
def podB : Pod :=
  { namespc := "d"
    spec :=
      { nodeName := "n2"
        volumes := [ { configMap := some { name := "cm1" }, secret := none, projected := none } ]
        containers := []
        imagePullSecrets := [] } }

/-- The pod of the extraction test: volume config map cfg1, projected
secret sec1, envFrom secret sec2, env key reference to cfg2, image-pull
secret sec3. -/
def extractionPod : Pod :=
  { namespc := "d"
    spec :=
      { nodeName := "n1"
        volumes :=
          [ { configMap := some { name := "cfg1" }, secret := none, projected := none },
            { configMap := none, secret := none,
              projected := some { sources := [ { configMap := none, secret := some { name := "sec1" } } ] } } ]
        containers :=
          [ { envFrom := [ { configMapRef := none, secretRef := some { name := "sec2" } } ],
              env := [ { valueFrom := some { configMapKeyRef := some { name := "cfg2" }, secretKeyRef := none } } ] } ]
        imagePullSecrets := [ { name := "sec3" } ] } }

/-- A pod whose projected source and env value source both name a config
map and a secret at once. -/
def bothBranchesPod (c1 s1 c2 s2 nsp node : String) : Pod :=
  { namespc := nsp
    spec :=
      { nodeName := node
        volumes :=
          [ { configMap := none, secret := none,
              projected := some { sources := [ { configMap := some { name := c1 }, secret := some { name := s1 } } ] } } ]
        containers :=
          [ { envFrom := [],
              env := [ { valueFrom := some { configMapKeyRef := some { name := c2 }, secretKeyRef := some { name := s2 } } } ] } ]
        imagePullSecrets := [] } }

/-! ## Claim theorems -/

def firstSeenEps : Endpoints :=
  { metadata :=
      { name := "e1", namespc := "d", resourceVersion := "7", generation := 3
        labels := [("app", "x")], annotations := [("note", "y")] }
    subsets := [ { addresses := [ { ip := "10.0.0.1" } ], ports := [ { port := 80 } ] } ] }

/-- A stored endpoints snapshot. -/
def storedEps : Endpoints :=
  { metadata :=
      { name := "e1", namespc := "d", resourceVersion := "1", generation := 1,
        labels := [("app", "x")], annotations := [("bookkeeping", "1")] }
    subsets := [ { addresses := [ { ip := "10.0.0.1" } ], ports := [ { port := 80 } ] } ] }

/-- The same object after churn: new resource-version, generation and
annotations only. -/
def churnEps : Endpoints :=
  { metadata :=
      { name := "e1", namespc := "d", resourceVersion := "2", generation := 2,
        labels := [("app", "x")], annotations := [("bookkeeping", "2")] }
    subsets := [ { addresses := [ { ip := "10.0.0.1" } ], ports := [ { port := 80 } ] } ] }

def epsCache : LocationCache := emptyCache.AddOrUpdateEndpoints storedEps

/-! ## Operation sequences over the whole cache -/

inductive CacheOp where
  | addOrUpdatePod (p : Pod)
  | updateEdgeNode (n : String)
  | deleteConfigMap (namespc name : String)
  | deleteSecret (namespc name : String)
  | deleteNode (n : String)
  | addOrUpdateEndpoints (e : Endpoints)
  | deleteEndpoints (e : Endpoints)
  deriving DecidableEq

def applyOp (lc : LocationCache) : CacheOp → LocationCache
  | .addOrUpdatePod p => lc.AddOrUpdatePod p
  | .updateEdgeNode n => lc.UpdateEdgeNode n
  | .deleteConfigMap nsp name => lc.DeleteConfigMap nsp name
  | .deleteSecret nsp name => lc.DeleteSecret nsp name
  | .deleteNode n => lc.DeleteNode n
  | .addOrUpdateEndpoints e => lc.AddOrUpdateEndpoints e
  | .deleteEndpoints e => lc.DeleteEndpoints e

def applyOps (lc : LocationCache) (ops : List CacheOp) : LocationCache :=
  ops.foldl applyOp lc

/-! ## Fine-grained interleaving of AddOrUpdatePod

sync.Map gives atomic Load and atomic Store, but AddOrUpdatePod runs an
unsynchronized load-modify-store per key.  For a pod whose extraction
yields exactly one config map the per-key body is one Load (pc 0) and
one Store of the locally computed list (pc 1). -/

structure PodThread where
  pod : Pod
  pc : Nat
  loaded : Option (List String)
  deriving DecidableEq

def initThread (p : Pod) : PodThread := { pod := p, pc := 0, loaded := none }

def threadKey (t : PodThread) : String :=
  locKey t.pod.namespc ((PodConfigMapsAndSecrets t.pod).1.headD "")

def stepThread (m : List (String × List String)) (t : PodThread) :
    List (String × List String) × PodThread :=
  if t.pc = 0 then
    (m, { t with pc := 1, loaded := mapLoad m (threadKey t) })
  else if t.pc = 1 then
    let nn := match t.loaded with
      | some nodes => newNodes nodes t.pod.spec.nodeName
      | none => [t.pod.spec.nodeName]
    (mapStore m (threadKey t) nn, { t with pc := 2 })
  else (m, t)

/-- Run two threads against the shared index; a false schedule entry
steps the first thread, a true entry the second. -/
def runTwo (m : List (String × List String)) (tA tB : PodThread) :
    List Bool → List (String × List String)
  | [] => m
  | b :: rest =>
    if b then
      let s := stepThread m tB
      runTwo s.1 tA s.2 rest
    else
      let s := stepThread m tA
      runTwo s.1 s.2 tB rest

/-! ## Reference-level model of the returned node lists

A Go slice is a header pointing at a backing array.  To state the
snapshot claims, node lists live in a heap of slices and the index
stores slice references; ConfigMapNodes returns the stored reference
itself, because the code returns the stored slice without copying.  The
lists built by the cache always have length equal to capacity, so the
append inside newNodes allocates a fresh array, while the branch that
returns oldNodes unchanged keeps the reference. -/

structure SliceHeap where
  cells : List (Nat × List String)
  next : Nat
  deriving DecidableEq

def sliceAlloc (h : SliceHeap) (v : List String) : SliceHeap × Nat :=
  ({ cells := mapStore h.cells h.next v, next := h.next + 1 }, h.next)

def sliceRead (h : SliceHeap) (r : Nat) : List String :=
  (mapLoad h.cells r).getD []

/-- In-place write of one element through a slice reference. -/
def sliceWrite (h : SliceHeap) (r i : Nat) (v : String) : SliceHeap :=
  { h with cells := mapStore h.cells r ((sliceRead h r).set i v) }

structure RefLocationCache where
  configMapNode : List (String × Nat)
  secretNode : List (String × Nat)
  heap : SliceHeap
  deriving DecidableEq

/-- The per-key body of AddOrUpdatePod at reference level, shared by the
config-map and the secret loop, whose Go bodies are identical. -/
def refAddNode (idx : List (String × Nat)) (h : SliceHeap) (k node : String) :
    List (String × Nat) × SliceHeap :=
  match mapLoad idx k with
  | some r =>
    let nodes := sliceRead h r
    if nodes.contains node then (mapStore idx k r, h)
    else
      let ar := sliceAlloc h (nodes ++ [node])
      (mapStore idx k ar.2, ar.1)
  | none =>
    let ar := sliceAlloc h [node]
    (mapStore idx k ar.2, ar.1)

def refAddNodeForKey (c : RefLocationCache) (k node : String) : RefLocationCache :=
  let r := refAddNode c.configMapNode c.heap k node
  { c with configMapNode := r.1, heap := r.2 }

def refAddSecretNodeForKey (c : RefLocationCache) (k node : String) : RefLocationCache :=
  let r := refAddNode c.secretNode c.heap k node
  { c with secretNode := r.1, heap := r.2 }

/-- ConfigMapNodes at reference level: the code returns the stored
slice, so the caller receives the stored reference. -/
def refConfigMapNodes (c : RefLocationCache) (nsp name : String) : Option Nat :=
  mapLoad c.configMapNode (locKey nsp name)

/-- SecretNodes at reference level: same body as ConfigMapNodes on the
secret index, returning the stored reference. -/
def refSecretNodes (c : RefLocationCache) (nsp name : String) : Option Nat :=
  mapLoad c.secretNode (locKey nsp name)

/-- The cache's stored config-map node list for a key, dereferenced. -/
def refStoredNodes (c : RefLocationCache) (nsp name : String) : List String :=
  match refConfigMapNodes c nsp name with
  | some r => sliceRead c.heap r
  | none => []

/-- The cache's stored secret node list for a key, dereferenced. -/
def refStoredSecretNodes (c : RefLocationCache) (nsp name : String) : List String :=
  match refSecretNodes c nsp name with
  | some r => sliceRead c.heap r
  | none => []

def emptyRefCache : RefLocationCache :=
  { configMapNode := [], secretNode := [], heap := { cells := [], next := 0 } }

/-- The reference cache after AddOrUpdatePod for podA. -/
def refCacheA : RefLocationCache := refAddNodeForKey emptyRefCache (locKey "d" "cm1") "n1"

/-- The reference cache after AddOrUpdatePod for a pod on node n2 whose
only dependency is secret sec1 in namespace d. -/
def refCacheS : RefLocationCache := refAddSecretNodeForKey emptyRefCache (locKey "d" "sec1") "n2"

/-! ## Reference-level model of stored endpoints

AddOrUpdateEndpoints stores the endpoints struct by value: scalar
metadata fields are copied, but the Subsets field is a slice header, so
the stored copy and the caller's object keep pointing at the same
backing array.  Subsets live in a heap and the struct holds a
reference. -/

structure SubsetHeap where
  cells : List (Nat × List EndpointSubset)
  next : Nat
  deriving DecidableEq

def subsetRead (h : SubsetHeap) (r : Nat) : List EndpointSubset :=
  (mapLoad h.cells r).getD []

/-- In-place replacement of one subset through the slice reference,
modelling a caller mutating an element of its Subsets array. -/
def subsetWriteAt (h : SubsetHeap) (r i : Nat) (s : EndpointSubset) : SubsetHeap :=
  { h with cells := mapStore h.cells r ((subsetRead h r).set i s) }

/-- An endpoints value at reference level: metadata held by value, the
Subsets slice as a reference. -/
structure RefEndpoints where
  metadata : ObjectMeta
  subsetsRef : Nat
  deriving DecidableEq

structure RefEndpointsCache where
  endpoints : List (String × RefEndpoints)
  heap : SubsetHeap
  deriving DecidableEq

/-- AddOrUpdateEndpoints at reference level: Store keeps the struct
copy, whose subsetsRef still names the caller's backing array. -/
def refAddOrUpdateEndpoints (c : RefEndpointsCache) (e : RefEndpoints) : RefEndpointsCache :=
  { c with endpoints := mapStore c.endpoints (locKey e.metadata.namespc e.metadata.name) e }

/-- The stored snapshot as observed through the heap: its metadata and
its dereferenced subsets. -/
def refStoredSnapshot (c : RefEndpointsCache) (k : String) :
    Option (ObjectMeta × List EndpointSubset) :=
  (mapLoad c.endpoints k).map (fun e => (e.metadata, subsetRead c.heap e.subsetsRef))

def epsMeta0 : ObjectMeta :=
  { name := "e1", namespc := "d", resourceVersion := "1", generation := 1,
    labels := [], annotations := [] }

def subsetA : EndpointSubset :=
  { addresses := [ { ip := "10.0.0.1" } ], ports := [ { port := 80 } ] }

def subsetB : EndpointSubset :=
  { addresses := [ { ip := "10.9.9.9" } ], ports := [ { port := 80 } ] }

/-- A cache that stored an endpoints object whose subsets array (cell 0)
holds subsetA. -/
def refEpsCache : RefEndpointsCache :=
  refAddOrUpdateEndpoints
    { endpoints := [], heap := { cells := [(0, [subsetA])], next := 1 } }
    { metadata := epsMeta0, subsetsRef := 0 }

/-! ## Lemmas and claim theorems -/

theorem mapLoad_store_self {κ α : Type} [DecidableEq κ] (m : List (κ × α)) (k : κ) (v : α) :
    mapLoad (mapStore m k v) k = some v := by
  induction m with
  | nil => simp [mapStore, mapLoad]
  | cons kv rest ih =>
    obtain ⟨k1, w⟩ := kv
    by_cases h : k1 = k
    · simp [mapStore, mapLoad, h]
    · simp [mapStore, mapLoad, h, ih]

theorem mapLoad_store_ne {κ α : Type} [DecidableEq κ] (m : List (κ × α)) (k k2 : κ) (v : α)
    (h : k2 ≠ k) : mapLoad (mapStore m k v) k2 = mapLoad m k2 := by
  induction m with
  | nil => simp [mapStore, mapLoad, Ne.symm h]
  | cons kv rest ih =>
    obtain ⟨k1, w⟩ := kv
    by_cases h1 : k1 = k
    · subst h1; simp [mapStore, mapLoad, Ne.symm h]
    · by_cases h2 : k1 = k2
      · subst h2; simp [mapStore, mapLoad, h]
      · simp [mapStore, mapLoad, h1, h2, ih]

theorem mapLoad_delete_self {κ α : Type} [DecidableEq κ] (m : List (κ × α)) (k : κ) :
    mapLoad (mapDelete m k) k = none := by
  induction m with
  | nil => simp [mapDelete, mapLoad]
  | cons kv rest ih =>
    obtain ⟨k1, w⟩ := kv
    by_cases h : k1 = k
    · simp [mapDelete, h, ih]
    · simp [mapDelete, mapLoad, h, ih]

theorem mem_newNodes_self (ns : List String) (n : String) : n ∈ newNodes ns n := by
  unfold newNodes
  split
  · next h => exact List.elem_iff.mp h
  · exact List.mem_append_right ns (List.mem_singleton.mpr rfl)

theorem mem_newNodes_of_mem {ns : List String} {x : String} (n : String) (h : x ∈ ns) :
    x ∈ newNodes ns n := by
  unfold newNodes
  split
  · exact h
  · exact List.mem_append_left _ h

theorem nodup_newNodes {ns : List String} (n : String) (h : ns.Nodup) :
    (newNodes ns n).Nodup := by
  unfold newNodes
  split
  · exact h
  · next hc =>
    rw [← List.concat_eq_append]
    exact h.concat (fun hm => hc (List.elem_iff.mpr hm))

theorem nodesAt_store_self (m : List (String × List String)) (k : String) (v : List String) :
    nodesAt (mapStore m k v) k = v := by
  unfold nodesAt; rw [mapLoad_store_self]

theorem nodesAt_store_ne (m : List (String × List String)) (k k2 : String) (v : List String)
    (h : k2 ≠ k) : nodesAt (mapStore m k v) k2 = nodesAt m k2 := by
  unfold nodesAt; rw [mapLoad_store_ne _ _ _ _ h]

theorem mapLoad_addNodeForKey_self (m : List (String × List String)) (k n : String) :
    mapLoad (addNodeForKey m k n) k = some (newNodes (nodesAt m k) n) := by
  unfold addNodeForKey
  cases hl : mapLoad m k with
  | some ns => rw [mapLoad_store_self]; simp [nodesAt, hl]
  | none => rw [mapLoad_store_self]; simp [nodesAt, hl, newNodes]

theorem mapLoad_addNodeForKey_ne (m : List (String × List String)) (k k2 n : String)
    (h : k2 ≠ k) : mapLoad (addNodeForKey m k n) k2 = mapLoad m k2 := by
  unfold addNodeForKey
  cases hl : mapLoad m k <;> rw [mapLoad_store_ne _ _ _ _ h]

theorem nodesAt_addNodeForKey_self (m : List (String × List String)) (k n : String) :
    nodesAt (addNodeForKey m k n) k = newNodes (nodesAt m k) n := by
  unfold nodesAt; rw [mapLoad_addNodeForKey_self]; rfl

theorem nodesAt_addNodeForKey_ne (m : List (String × List String)) (k k2 n : String)
    (h : k2 ≠ k) : nodesAt (addNodeForKey m k n) k2 = nodesAt m k2 := by
  unfold nodesAt; rw [mapLoad_addNodeForKey_ne _ _ _ _ h]

theorem mem_nodesAt_addNodeForKey {m : List (String × List String)} {k2 x : String}
    (k n : String) (h : x ∈ nodesAt m k2) : x ∈ nodesAt (addNodeForKey m k n) k2 := by
  by_cases he : k2 = k
  · subst he; rw [nodesAt_addNodeForKey_self]; exact mem_newNodes_of_mem n h
  · rw [nodesAt_addNodeForKey_ne _ _ _ _ he]; exact h

theorem indexNodup_nodesAt {m : List (String × List String)} (h : IndexNodup m)
    (k : String) : (nodesAt m k).Nodup := by
  unfold nodesAt
  cases hl : mapLoad m k with
  | some ns => exact h k ns hl
  | none => exact List.nodup_nil

theorem indexNodup_addNodeForKey {m : List (String × List String)} (h : IndexNodup m)
    (k n : String) : IndexNodup (addNodeForKey m k n) := by
  intro k2 l hl
  by_cases he : k2 = k
  · subst he
    rw [mapLoad_addNodeForKey_self] at hl
    cases hl
    exact nodup_newNodes n (indexNodup_nodesAt h k2)
  · rw [mapLoad_addNodeForKey_ne _ _ _ _ he] at hl
    exact h k2 l hl

theorem mem_nodesAt_foldAdd {nsp node : String} (names : List String)
    (m : List (String × List String)) (k x : String) (h : x ∈ nodesAt m k) :
    x ∈ nodesAt (names.foldl (fun m2 c => addNodeForKey m2 (locKey nsp c) node) m) k := by
  induction names generalizing m with
  | nil => exact h
  | cons c rest ih =>
    simp only [List.foldl_cons]
    exact ih _ (mem_nodesAt_addNodeForKey _ _ h)

theorem node_mem_foldAdd {nsp node : String} (names : List String) (c : String)
    (hc : c ∈ names) (m : List (String × List String)) :
    node ∈ nodesAt (names.foldl (fun m2 c2 => addNodeForKey m2 (locKey nsp c2) node) m)
      (locKey nsp c) := by
  induction names generalizing m with
  | nil => cases hc
  | cons c1 rest ih =>
    simp only [List.foldl_cons]
    rcases List.mem_cons.mp hc with h | h
    · subst h
      refine mem_nodesAt_foldAdd rest _ _ _ ?_
      rw [nodesAt_addNodeForKey_self]
      exact mem_newNodes_self _ _
    · exact ih h _

theorem indexNodup_foldAdd {nsp node : String} (names : List String)
    (m : List (String × List String)) (h : IndexNodup m) :
    IndexNodup (names.foldl (fun m2 c => addNodeForKey m2 (locKey nsp c) node) m) := by
  induction names generalizing m with
  | nil => exact h
  | cons c rest ih =>
    simp only [List.foldl_cons]
    exact ih _ (indexNodup_addNodeForKey h _ _)

theorem cacheNodup_empty : CacheNodup emptyCache := by
  constructor <;> intro k l hl <;> simp [emptyCache, mapLoad] at hl

theorem cacheNodup_addOrUpdatePod {lc : LocationCache} (h : CacheNodup lc) (p : Pod) :
    CacheNodup (lc.AddOrUpdatePod p) := by
  unfold LocationCache.AddOrUpdatePod
  exact ⟨indexNodup_foldAdd _ _ h.1, indexNodup_foldAdd _ _ h.2⟩

theorem cacheNodup_applyPods {lc : LocationCache} (h : CacheNodup lc) (pods : List Pod) :
    CacheNodup (applyPods lc pods) := by
  induction pods generalizing lc with
  | nil => exact h
  | cons p rest ih => exact ih (cacheNodup_addOrUpdatePod h p)

theorem addOrUpdatePod_mem_configMapNodes (lc : LocationCache) (p : Pod) (c : String)
    (hc : c ∈ (PodConfigMapsAndSecrets p).1) :
    p.spec.nodeName ∈ (lc.AddOrUpdatePod p).ConfigMapNodes p.namespc c := by
  unfold LocationCache.AddOrUpdatePod LocationCache.ConfigMapNodes
  exact node_mem_foldAdd _ c hc _

theorem addOrUpdatePod_configMapNodes_mono {lc : LocationCache} {nsp c x : String}
    (p : Pod) (h : x ∈ lc.ConfigMapNodes nsp c) :
    x ∈ (lc.AddOrUpdatePod p).ConfigMapNodes nsp c := by
  unfold LocationCache.ConfigMapNodes at h ⊢
  unfold LocationCache.AddOrUpdatePod
  exact mem_nodesAt_foldAdd _ _ _ _ h

theorem applyPods_configMapNodes_mono {nsp c x : String} (pods : List Pod)
    (lc : LocationCache) (h : x ∈ lc.ConfigMapNodes nsp c) :
    x ∈ (applyPods lc pods).ConfigMapNodes nsp c := by
  induction pods generalizing lc with
  | nil => exact h
  | cons p rest ih => exact ih _ (addOrUpdatePod_configMapNodes_mono p h)

/-- Claim C1: after any number of repeated AddOrUpdatePod calls for the
same pod, ConfigMapNodes of a referenced config map holds the pod's node
name exactly once, and after any sequence of AddOrUpdatePod calls every
stored node list of both reverse indices is duplicate-free. -/
theorem addOrUpdatePod_node_exactly_once :
    (∀ (p : Pod) (c : String) (n : Nat), c ∈ (PodConfigMapsAndSecrets p).1 →
      ((applyPods emptyCache (List.replicate (n + 1) p)).ConfigMapNodes p.namespc c).count
        p.spec.nodeName = 1)
    ∧ (∀ (pods : List Pod) (k : String) (l : List String),
        mapLoad (applyPods emptyCache pods).configMapNode k = some l → l.Nodup)
    ∧ (∀ (pods : List Pod) (k : String) (l : List String),
        mapLoad (applyPods emptyCache pods).secretNode k = some l → l.Nodup) := by
  refine ⟨?_, ?_, ?_⟩
  · intro p c n hc
    have hmem : p.spec.nodeName ∈
        (applyPods emptyCache (List.replicate (n + 1) p)).ConfigMapNodes p.namespc c := by
      rw [List.replicate_succ]
      have hfold : applyPods emptyCache (p :: List.replicate n p)
          = applyPods (emptyCache.AddOrUpdatePod p) (List.replicate n p) := rfl
      rw [hfold]
      exact applyPods_configMapNodes_mono _ _
        (addOrUpdatePod_mem_configMapNodes emptyCache p c hc)
    have hnd : ((applyPods emptyCache (List.replicate (n + 1) p)).ConfigMapNodes
        p.namespc c).Nodup := by
      unfold LocationCache.ConfigMapNodes
      exact indexNodup_nodesAt (cacheNodup_applyPods cacheNodup_empty _).1 _
    exact List.count_eq_one_of_mem hnd hmem
  · intro pods k l hl
    exact (cacheNodup_applyPods cacheNodup_empty pods).1 k l hl
  · intro pods k l hl
    exact (cacheNodup_applyPods cacheNodup_empty pods).2 k l hl

theorem addOrUpdatePod_node_exactly_once_witness :
    ("cm1" ∈ (PodConfigMapsAndSecrets podA).1)
    ∧ ((applyPods emptyCache (List.replicate (1 + 1) podA)).ConfigMapNodes
        podA.namespc "cm1").count podA.spec.nodeName = 1 :=
  ⟨by decide, addOrUpdatePod_node_exactly_once.1 podA "cm1" 1 (by decide)⟩

/-- Claim C4: dependency extraction on the five-reference pod yields
config maps cfg1, cfg2 and secrets sec1, sec2, sec3, in discovery order. -/
theorem podConfigMapsAndSecrets_extraction :
    PodConfigMapsAndSecrets extractionPod = (["cfg1", "cfg2"], ["sec1", "sec2", "sec3"]) := by
  decide

/-- Claim C5: IsEndpointsUpdated is true for a key with no stored
snapshot, whatever the content of the new object. -/
theorem isEndpointsUpdated_first_seen (lc : LocationCache) (e : Endpoints)
    (h : mapLoad lc.endpoints (locKey e.metadata.namespc e.metadata.name) = none) :
    lc.IsEndpointsUpdated e = true := by
  unfold LocationCache.IsEndpointsUpdated
  rw [h]

theorem isEndpointsUpdated_first_seen_witness :
    mapLoad emptyCache.endpoints
      (locKey firstSeenEps.metadata.namespc firstSeenEps.metadata.name) = none
    ∧ emptyCache.IsEndpointsUpdated firstSeenEps = true :=
  ⟨rfl, isEndpointsUpdated_first_seen emptyCache firstSeenEps rfl⟩

/-- Claim C6: deleting a config map or a secret empties every later
nodes query for the same key, however many nodes were attached. -/
theorem deleteKey_nodes_empty (lc : LocationCache) (nsp name : String) :
    (lc.DeleteConfigMap nsp name).ConfigMapNodes nsp name = []
    ∧ (lc.DeleteSecret nsp name).SecretNodes nsp name = [] := by
  constructor
  · unfold LocationCache.DeleteConfigMap LocationCache.ConfigMapNodes nodesAt
    rw [mapLoad_delete_self]
  · unfold LocationCache.DeleteSecret LocationCache.SecretNodes nodesAt
    rw [mapLoad_delete_self]

/-- Claim C10: when a projected source names both a config map and a
secret, only the config map is recorded, and the same for an env value
source with both key references; the secrets are dropped. -/
theorem bothBranches_prefer_configMap (c1 s1 c2 s2 nsp node : String) :
    PodConfigMapsAndSecrets (bothBranchesPod c1 s1 c2 s2 nsp node) = ([c1, c2], []) := rfl

/-- Claim C2: a new endpoints object that differs from the stored
snapshot only in resource-version, generation or annotations is reported
unchanged. -/
theorem isEndpointsUpdated_churn_only_false (lc : LocationCache) (old new : Endpoints)
    (hload : mapLoad lc.endpoints (locKey new.metadata.namespc new.metadata.name) = some old)
    (hmeta : maskChurn old.metadata new.metadata = new.metadata)
    (hsub : old.subsets = new.subsets) :
    lc.IsEndpointsUpdated new = false := by
  unfold LocationCache.IsEndpointsUpdated
  rw [hload]
  simp [hmeta, hsub]

theorem isEndpointsUpdated_churn_only_false_witness :
    mapLoad epsCache.endpoints
      (locKey churnEps.metadata.namespc churnEps.metadata.name) = some storedEps
    ∧ maskChurn storedEps.metadata churnEps.metadata = churnEps.metadata
    ∧ storedEps.subsets = churnEps.subsets
    ∧ epsCache.IsEndpointsUpdated churnEps = false :=
  ⟨by decide, by decide, by decide,
    isEndpointsUpdated_churn_only_false epsCache storedEps churnEps
      (by decide) (by decide) (by decide)⟩

theorem contains_false_of_notMem {l : List String} {n : String} (h : n ∉ l) :
    l.contains n = false := by
  cases hc : l.contains n with
  | false => rfl
  | true => exact absurd (List.elem_iff.mp hc) h

theorem notMem_edgeNodes_applyOp {lc : LocationCache} {n : String} (h : n ∉ lc.EdgeNodes)
    {op : CacheOp} (hop : op ≠ CacheOp.updateEdgeNode n) :
    n ∉ (applyOp lc op).EdgeNodes := by
  cases op with
  | updateEdgeNode m =>
    have hm : m ≠ n := fun he => hop (by rw [he])
    unfold applyOp LocationCache.UpdateEdgeNode
    dsimp only
    split
    · exact h
    · intro hmem
      rcases List.mem_append.mp hmem with h1 | h1
      · exact h h1
      · exact hm (List.mem_singleton.mp h1).symm
  | deleteNode m =>
    intro hmem
    exact h (List.mem_of_mem_filter hmem)
  | addOrUpdatePod p => exact h
  | deleteConfigMap nsp name => exact h
  | deleteSecret nsp name => exact h
  | addOrUpdateEndpoints e => exact h
  | deleteEndpoints e => exact h

theorem notMem_edgeNodes_applyOps {n : String} (ops : List CacheOp) (lc : LocationCache)
    (h : n ∉ lc.EdgeNodes) (hops : CacheOp.updateEdgeNode n ∉ ops) :
    n ∉ (applyOps lc ops).EdgeNodes := by
  induction ops generalizing lc with
  | nil => exact h
  | cons op rest ih =>
    simp only [applyOps, List.foldl_cons]
    exact ih _ (notMem_edgeNodes_applyOp h (fun he => hops (he ▸ List.mem_cons_self _ _)))
      (fun hm => hops (List.mem_cons_of_mem _ hm))

/-- Claim C7: IsEdgeNode is false for a name never passed to
UpdateEdgeNode during any operation sequence from the empty cache, true
right after UpdateEdgeNode, false right after DeleteNode, and DeleteNode
of an unknown name leaves the cache unchanged. -/
theorem isEdgeNode_lifecycle (n : String) (ops : List CacheOp) (lc : LocationCache) :
    (CacheOp.updateEdgeNode n ∉ ops → (applyOps emptyCache ops).IsEdgeNode n = false)
    ∧ (lc.UpdateEdgeNode n).IsEdgeNode n = true
    ∧ (lc.DeleteNode n).IsEdgeNode n = false
    ∧ (lc.IsEdgeNode n = false → lc.DeleteNode n = lc) := by
  refine ⟨?_, ?_, ?_, ?_⟩
  · intro hops
    exact contains_false_of_notMem
      (notMem_edgeNodes_applyOps ops emptyCache (by simp [emptyCache]) hops)
  · unfold LocationCache.UpdateEdgeNode LocationCache.IsEdgeNode
    dsimp only
    split
    · assumption
    · exact List.elem_iff.mpr (List.mem_append_right _ (List.mem_singleton.mpr rfl))
  · refine contains_false_of_notMem ?_
    intro hmem
    have hp := List.of_mem_filter hmem
    simp at hp
  · intro h
    unfold LocationCache.IsEdgeNode at h
    have hn : n ∉ lc.EdgeNodes := by
      intro hm
      rw [show lc.EdgeNodes.contains n = true from List.elem_iff.mpr hm] at h
      cases h
    unfold LocationCache.DeleteNode
    have hf : lc.EdgeNodes.filter (fun x => !(x == n)) = lc.EdgeNodes := by
      apply List.filter_eq_self.mpr
      intro a ha
      simp only [Bool.not_eq_true']
      exact beq_false_of_ne (fun he => hn (he ▸ ha))
    rw [hf]

theorem isEdgeNode_lifecycle_witness :
    (CacheOp.updateEdgeNode "a" ∉ [CacheOp.updateEdgeNode "b"])
    ∧ (applyOps emptyCache [CacheOp.updateEdgeNode "b"]).IsEdgeNode "a" = false
    ∧ (emptyCache.UpdateEdgeNode "a").IsEdgeNode "a" = true
    ∧ (emptyCache.DeleteNode "a").IsEdgeNode "a" = false
    ∧ (emptyCache.IsEdgeNode "a" = false ∧ emptyCache.DeleteNode "a" = emptyCache) :=
  ⟨by decide,
   (isEdgeNode_lifecycle "a" [CacheOp.updateEdgeNode "b"] emptyCache).1 (by decide),
   (isEdgeNode_lifecycle "a" [CacheOp.updateEdgeNode "b"] emptyCache).2.1,
   (isEdgeNode_lifecycle "a" [CacheOp.updateEdgeNode "b"] emptyCache).2.2.1,
   by decide,
   (isEdgeNode_lifecycle "a" [CacheOp.updateEdgeNode "b"] emptyCache).2.2.2 (by decide)⟩

/-- Claim C3 counterexample: when both threads pass their Load before
either Store (schedule A-load, B-load, A-store, B-store), the insertion
of podA's node n1 is lost and the final list for key d/cm1 only holds
n2, not both of the two distinct node names. -/
theorem concurrent_addOrUpdatePod_lost_update :
    runTwo emptyCache.configMapNode (initThread podA) (initThread podB)
      [false, true, false, true] = [("d/cm1", ["n2"])]
    ∧ "n1" ∉ nodesAt (runTwo emptyCache.configMapNode (initThread podA) (initThread podB)
        [false, true, false, true]) (locKey "d" "cm1") := by
  constructor
  · decide
  · decide

/-- Claim C3 amended: when the N AddOrUpdatePod calls run sequentially
(no interleaving inside the load-modify-store), ConfigMapNodes of the
shared config map contains every pod's node name. -/
theorem sequential_addOrUpdatePod_no_lost_updates (pods : List Pod) (nsp cm : String)
    (h : ∀ p ∈ pods, p.namespc = nsp ∧ cm ∈ (PodConfigMapsAndSecrets p).1) :
    ∀ p ∈ pods, p.spec.nodeName ∈ (applyPods emptyCache pods).ConfigMapNodes nsp cm := by
  suffices hgen : ∀ (pods2 : List Pod) (lc : LocationCache),
      (∀ p ∈ pods2, p.namespc = nsp ∧ cm ∈ (PodConfigMapsAndSecrets p).1) →
      ∀ p ∈ pods2, p.spec.nodeName ∈ (applyPods lc pods2).ConfigMapNodes nsp cm by
    exact hgen pods emptyCache h
  intro pods2
  induction pods2 with
  | nil => intro lc _ p hp; cases hp
  | cons q rest ih =>
    intro lc hall p hp
    have hfold : applyPods lc (q :: rest) = applyPods (lc.AddOrUpdatePod q) rest := rfl
    rw [hfold]
    rcases List.mem_cons.mp hp with he | he
    · subst he
      obtain ⟨hns, hcm⟩ := hall p (List.mem_cons_self _ _)
      refine applyPods_configMapNodes_mono _ _ ?_
      rw [← hns]
      exact addOrUpdatePod_mem_configMapNodes lc p cm hcm
    · exact ih _ (fun r hr => hall r (List.mem_cons_of_mem _ hr)) p he

theorem sequential_addOrUpdatePod_no_lost_updates_witness :
    podA.spec.nodeName ∈ (applyPods emptyCache [podA, podB]).ConfigMapNodes "d" "cm1"
    ∧ podB.spec.nodeName ∈ (applyPods emptyCache [podA, podB]).ConfigMapNodes "d" "cm1" :=
  ⟨sequential_addOrUpdatePod_no_lost_updates [podA, podB] "d" "cm1" (by decide)
      podA (by decide),
   sequential_addOrUpdatePod_no_lost_updates [podA, podB] "d" "cm1" (by decide)
      podB (by decide)⟩

theorem sliceRead_write_self (h : SliceHeap) (r i : Nat) (v : String) :
    sliceRead (sliceWrite h r i v) r = (sliceRead h r).set i v := by
  unfold sliceWrite sliceRead
  rw [mapLoad_store_self]
  rfl

/-- Claim C8 counterexample: ConfigMapNodes hands out the stored slice;
writing element 0 of the returned slice turns the cache's stored node
list for the key from n1 into mut. -/
theorem configMapNodes_not_snapshot :
    refConfigMapNodes refCacheA "d" "cm1" = some 0
    ∧ refStoredNodes refCacheA "d" "cm1" = ["n1"]
    ∧ refStoredNodes { refCacheA with heap := sliceWrite refCacheA.heap 0 0 "mut" } "d" "cm1"
        = ["mut"]
    ∧ refStoredNodes { refCacheA with heap := sliceWrite refCacheA.heap 0 0 "mut" } "d" "cm1"
        ≠ refStoredNodes refCacheA "d" "cm1" := by
  refine ⟨by decide, by decide, by decide, by decide⟩

/-- Claim C8 amended: ConfigMapNodes and SecretNodes return the stored
slice itself, not a copy; an in-place write through the returned
reference is an in-place write of the cache's stored node list for that
key, in whichever of the two indices holds it. -/
theorem refNodesQueries_alias (c : RefLocationCache) (nsp name : String) (r i : Nat)
    (v : String) :
    (refConfigMapNodes c nsp name = some r →
      refStoredNodes { c with heap := sliceWrite c.heap r i v } nsp name
        = (refStoredNodes c nsp name).set i v)
    ∧ (refSecretNodes c nsp name = some r →
      refStoredSecretNodes { c with heap := sliceWrite c.heap r i v } nsp name
        = (refStoredSecretNodes c nsp name).set i v) := by
  constructor
  · intro h
    have h2 : refConfigMapNodes { c with heap := sliceWrite c.heap r i v } nsp name
        = some r := h
    unfold refStoredNodes
    rw [h2, h]
    exact sliceRead_write_self c.heap r i v
  · intro h
    have h2 : refSecretNodes { c with heap := sliceWrite c.heap r i v } nsp name
        = some r := h
    unfold refStoredSecretNodes
    rw [h2, h]
    exact sliceRead_write_self c.heap r i v

theorem refNodesQueries_alias_witness :
    (refConfigMapNodes refCacheA "d" "cm1" = some 0
      ∧ refStoredNodes { refCacheA with heap := sliceWrite refCacheA.heap 0 0 "mut" } "d" "cm1"
          = (refStoredNodes refCacheA "d" "cm1").set 0 "mut")
    ∧ (refSecretNodes refCacheS "d" "sec1" = some 0
      ∧ refStoredSecretNodes
          { refCacheS with heap := sliceWrite refCacheS.heap 0 0 "mut" } "d" "sec1"
          = (refStoredSecretNodes refCacheS "d" "sec1").set 0 "mut") :=
  ⟨⟨by decide, (refNodesQueries_alias refCacheA "d" "cm1" 0 0 "mut").1 (by decide)⟩,
   ⟨by decide, (refNodesQueries_alias refCacheS "d" "sec1" 0 0 "mut").2 (by decide)⟩⟩

theorem subsetRead_writeAt_self (h : SubsetHeap) (r i : Nat) (s : EndpointSubset) :
    subsetRead (subsetWriteAt h r i s) r = (subsetRead h r).set i s := by
  unfold subsetWriteAt subsetRead
  rw [mapLoad_store_self]
  rfl

/-- Claim C9 counterexample: after storing, the caller's in-place
mutation of its subsets array (cell 0) changes the stored snapshot from
subsetA to subsetB; the snapshot is not a deep value copy. -/
theorem addOrUpdateEndpoints_not_deep_copy :
    refStoredSnapshot refEpsCache (locKey "d" "e1") = some (epsMeta0, [subsetA])
    ∧ refStoredSnapshot
        { refEpsCache with heap := subsetWriteAt refEpsCache.heap 0 0 subsetB }
        (locKey "d" "e1") = some (epsMeta0, [subsetB])
    ∧ subsetA ≠ subsetB := by
  refine ⟨by decide, by decide, by decide⟩

/-- Claim C9 amended: the stored snapshot is a shallow struct copy:
its metadata is an independent value copy of the caller's metadata, but
its subsets are shared, so a later in-place mutation of the caller's
subsets array is visible in the stored snapshot. -/
theorem refAddOrUpdateEndpoints_shallow_copy (c : RefEndpointsCache) (e : RefEndpoints)
    (i : Nat) (s : EndpointSubset) :
    refStoredSnapshot (refAddOrUpdateEndpoints c e) (locKey e.metadata.namespc e.metadata.name)
      = some (e.metadata, subsetRead c.heap e.subsetsRef)
    ∧ refStoredSnapshot
        { refAddOrUpdateEndpoints c e with heap := subsetWriteAt c.heap e.subsetsRef i s }
        (locKey e.metadata.namespc e.metadata.name)
      = some (e.metadata, (subsetRead c.heap e.subsetsRef).set i s) := by
  constructor
  · unfold refStoredSnapshot refAddOrUpdateEndpoints
    rw [mapLoad_store_self]
    rfl
  · unfold refStoredSnapshot refAddOrUpdateEndpoints
    rw [mapLoad_store_self]
    simp [subsetRead_writeAt_self]
